import Mathlib

/-!
Shallow embedding of the kratos `config` orchestrator (src/config/config.go).

The orchestrator owns a cache of `Value` objects, an observer registry and a
watcher list, and is driven by external collaborators (Reader, Source,
Watcher, decoder).  Those collaborators are outside src/ and are modelled
from the spec as oracles.  Go object identity of cached `Value`s is modelled
with an explicit heap: a cache entry maps a key to a heap index, and
`Value.Store` mutates the heap slot in place.
-/

namespace KratosConfig

/-- Modelled from the spec: the dynamic (Go `interface{}`) payload of one
resolved configuration leaf.  A few representative Go dynamic types suffice
to express `reflect.TypeOf` / `reflect.DeepEqual` comparisons. -/
inductive Payload
  | pInt (n : Int)
  | pStr (s : String)
  | pBool (b : Bool)
deriving DecidableEq, Repr

/-- The dynamic type tag of a payload, as `reflect.TypeOf` sees it. -/
inductive PType
  | tInt
  | tStr
  | tBool
deriving DecidableEq, Repr

def Payload.ptype : Payload → PType
  | .pInt _ => .tInt
  | .pStr _ => .tStr
  | .pBool _ => .tBool

/-- `reflect.TypeOf` on a Go interface value that may be nil (`none`):
`reflect.TypeOf(nil)` is the nil type (`none`). -/
def typeOf (p : Option Payload) : Option PType :=
  p.map Payload.ptype

/-- `reflect.DeepEqual` on two possibly-nil Go interface values. -/
def deepEqual (a b : Option Payload) : Prop :=
  a = b

instance (a b : Option Payload) : Decidable (deepEqual a b) := by
  unfold deepEqual; infer_instance

/-- A Go error value, identified by its message. -/
structure Err where
  msg : String
deriving DecidableEq, Repr

/-- `ErrNotFound = errors.New("key not found")` (config.go line 21). -/
def errNotFound : Err := ⟨"key not found"⟩

/-- Modelled from the spec: the `Value` abstraction (its implementation file
is outside src/).  Two terminal variants: a live value holding a mutable
payload behind an atomic load/store pair, and an immutable error value whose
`Load` yields no payload. -/
inductive GoValue
  | live (payload : Option Payload)
  | errv (e : Err)
deriving DecidableEq, Repr

/-- Modelled from the spec: `Value.Load` returns the current payload for the
live variant and nothing for the error variant. -/
def GoValue.load : GoValue → Option Payload
  | .live p => p
  | .errv _ => none

/-- Modelled from the spec: `Value.Store` replaces the payload of a live
value in place; the error variant is immutable. -/
def GoValue.store (v : GoValue) (p : Option Payload) : GoValue :=
  match v with
  | .live _ => .live p
  | .errv e => .errv e

/-- `sync.Map.Load`: first binding of a key in an association list. -/
def loadAssoc {β : Type} : List (String × β) → String → Option β
  | [], _ => none
  | (k', v) :: rest, k => if k' = k then some v else loadAssoc rest k

/-- `sync.Map.Store`: replace the binding of a key in place, or append a new
binding when the key is absent. -/
def storeAssoc {β : Type} : List (String × β) → String → β → List (String × β)
  | [], k, v => [(k, v)]
  | (k', v') :: rest, k, v =>
      if k' = k then (k, v) :: rest else (k', v') :: storeAssoc rest k v

/-- Heap indices standing for Go object identities of `Value`s. -/
abbrev ValueId := Nat

/-- Write one heap slot, leaving all other objects untouched. -/
def setHeap (h : Nat → GoValue) (i : Nat) (v : GoValue) : Nat → GoValue :=
  fun j => if j = i then v else h j

/-- The mutable state of one `config` orchestrator (struct `config`,
config.go lines 40-47): the cache (`cached sync.Map`, key to `Value` object),
the observer registry (`observers sync.Map`, key to callback) and, behind the
scenes, the heap of `Value` objects giving them identity.  Observers are
opaque and named by numeric ids. -/
structure ConfigState where
  heapNext : Nat
  heap : Nat → GoValue
  cached : List (String × ValueId)
  observers : List (String × Nat)

/-- A reader lookup oracle: `Reader.Value(key)` per the spec contract.
`none` means the key is absent (`ok = false`); `some p` means present with a
fresh live `Value` whose `Load()` is `p`. -/
abbrev RV := String → Option (Option Payload)

/-- What `c.Value(key)` hands back: a reference to a heap-resident `Value`
object, or a freshly made error-variant value. -/
inductive ValueRef
  | ref (i : ValueId)
  | errRef (e : Err)
deriving DecidableEq, Repr

/-- `Load()` on a returned value: dereference the heap for live objects;
an error value always loads nothing. -/
def derefLoad (heap : Nat → GoValue) : ValueRef → Option Payload
  | .ref i => (heap i).load
  | .errRef _ => none

/-- `c.Value(key)` (config.go lines 128-137): serve from cache; else query
the Reader, caching a hit (a fresh live object) and returning a fresh
uncached error value on a miss. -/
def cValue (rv : RV) (st : ConfigState) (key : String) : ValueRef × ConfigState :=
  match loadAssoc st.cached key with
  | some i => (.ref i, st)
  | none =>
      match rv key with
      | some p =>
          (.ref st.heapNext,
            { st with
              heapNext := st.heapNext + 1
              heap := setHeap st.heap st.heapNext (.live p)
              cached := st.cached ++ [(key, st.heapNext)] })
      | none => (.errRef errNotFound, st)

/-- `c.Watch(key, o)` (config.go lines 152-158): fail with `ErrNotFound`
when `c.Value(key).Load()` is nil, otherwise store the observer under the
key. -/
def cWatch (rv : RV) (st : ConfigState) (key : String) (o : Nat) :
    Option Err × ConfigState :=
  let r := cValue rv st key
  if derefLoad r.2.heap r.1 = none then
    (some errNotFound, r.2)
  else
    (none, { r.2 with observers := storeAssoc r.2.observers key o })

/-- One observer callback firing: the key, the registered observer id, and
the payload the delivered `Value` holds at call time. -/
structure Invocation where
  key : String
  obsId : Nat
  payload : Option Payload
deriving DecidableEq, Repr

/-- The `c.cached.Range` body of the reconciliation loop (config.go lines
86-96): for each cache entry in order, look the key up in the Reader; when
the key is present, the fresh payload's dynamic type equals the cached one
and the payloads are not deeply equal, store the fresh payload into the
cached object and fire the registered observer, if any. -/
def rangeScanGo (rv : RV) (obs : List (String × Nat)) :
    List (String × ValueId) → (Nat → GoValue) → (Nat → GoValue) × List Invocation
  | [], heap => (heap, [])
  | (k, i) :: rest, heap =>
      let v := heap i
      match rv k with
      | some np =>
          if typeOf np = typeOf v.load ∧ ¬ deepEqual np v.load then
            let heap1 := setHeap heap i (v.store np)
            let here : List Invocation :=
              match loadAssoc obs k with
              | some oid => [⟨k, oid, np⟩]
              | none => []
            let r := rangeScanGo rv obs rest heap1
            (r.1, here ++ r.2)
          else
            rangeScanGo rv obs rest heap
      | none => rangeScanGo rv obs rest heap

/-- The cache-scan phase of one reconciliation cycle, over the whole
orchestrator state. -/
def rangeScan (rv : RV) (st : ConfigState) : ConfigState × List Invocation :=
  let r := rangeScanGo rv st.observers st.cached st.heap
  ({ st with heap := r.1 }, r.2)

/-- Modelled from the spec: the outcome of `Watcher.Next()` — a change
batch, a distinguished cancellation error (`context.Canceled`), or any other
error. -/
inductive NextResult
  | cancelled
  | nextErr
  | ok (kvs : List String)
deriving DecidableEq, Repr

/-- Oracle fixing the behaviour of the external collaborators during one
iteration of a reconciliation loop: what `Next()` returns, whether
`Reader.Merge` and `Reader.Resolve` fail, and the post-resolve lookup
table. -/
structure IterOracle where
  next : NextResult
  mergeFails : Bool
  resolveFails : Bool
  rv : RV

/-- Observable effects of one iteration of the reconciliation loop. -/
structure IterEffects where
  terminated : Bool
  sleptSeconds : Nat
  mergeAttempted : Bool
  resolveAttempted : Bool
  scanned : Bool
deriving DecidableEq, Repr

/-- One iteration of `c.watch(w)` (config.go lines 67-97): a cancellation
error returns from the loop; any other `Next` error sleeps one second and
retries; a merge failure skips resolve; a resolve failure skips the cache
scan; otherwise the cache is scanned, updated and observers fired.  No error
escapes: the iteration always yields a next state. -/
def watchIter (o : IterOracle) (st : ConfigState) :
    IterEffects × ConfigState × List Invocation :=
  match o.next with
  | .cancelled =>
      (⟨true, 0, false, false, false⟩, st, [])
  | .nextErr =>
      (⟨false, 1, false, false, false⟩, st, [])
  | .ok _ =>
      if o.mergeFails then
        (⟨false, 0, true, false, false⟩, st, [])
      else if o.resolveFails then
        (⟨false, 0, true, true, false⟩, st, [])
      else
        let r := rangeScan o.rv st
        (⟨false, 0, true, true, true⟩, r.1, r.2)

/-- The reconciliation loop `c.watch(w)`, run over a finite schedule of
per-iteration oracles; it stops at the first cancellation and otherwise
keeps iterating. -/
def watchLoop : List IterOracle → ConfigState →
    ConfigState × List IterEffects × List Invocation
  | [], st => (st, [], [])
  | o :: rest, st =>
      let r := watchIter o st
      if r.1.terminated then (r.2.1, [r.1], r.2.2)
      else
        let r' := watchLoop rest r.2.1
        (r'.1, r.1 :: r'.2.1, r.2.2 ++ r'.2.2)

/-- A configuration fragment (`KeyValue`): key, raw value and format. -/
structure KeyValue where
  key : String
  value : String
  format : String
deriving DecidableEq, Repr

/-- Modelled from the spec: one configured `Source` as consumed by `Load` —
the result of its initial `Load()`, whether the Reader's `Merge` of its
fragments fails, and the result of its `Watch()` (a watcher id on
success). -/
structure SourceModel where
  loadRes : Except Err (List KeyValue)
  mergeRes : Option Err
  watchRes : Except Err Nat
deriving Repr

/-- One step of `c.Load()`'s trace, for stating call order and counts. -/
inductive LoadEvent
  | srcLoad (kvs : List KeyValue)
  | merge (kvs : List KeyValue)
  | watchSetup (w : Nat)
  | spawn (w : Nat)
  | resolve
deriving DecidableEq, Repr

/-- The per-source loop of `c.Load()` (config.go lines 101-120): for each
source in order, `Source.Load`, then `Reader.Merge`, then `Source.Watch`;
the first error aborts with merged batches kept.  Returns the error (if
any), the event trace, the successfully merged batches and the recorded
watchers. -/
def loadGo : List SourceModel → List LoadEvent → List (List KeyValue) → List Nat →
    Option Err × List LoadEvent × List (List KeyValue) × List Nat
  | [], tr, merged, ws => (none, tr, merged, ws)
  | s :: rest, tr, merged, ws =>
      match s.loadRes with
      | .error e => (some e, tr, merged, ws)
      | .ok kvs =>
          let tr1 := tr ++ [.srcLoad kvs]
          match s.mergeRes with
          | some e => (some e, tr1 ++ [.merge kvs], merged, ws)
          | none =>
              let tr2 := tr1 ++ [.merge kvs]
              match s.watchRes with
              | .error e => (some e, tr2, merged ++ [kvs], ws)
              | .ok w =>
                  loadGo rest (tr2 ++ [.watchSetup w, .spawn w])
                    (merged ++ [kvs]) (ws ++ [w])

/-- `c.Load()` (config.go lines 100-126): run the per-source loop; if it
succeeds, call `Reader.Resolve()` exactly once and return its error. -/
def cLoad (srcs : List SourceModel) (resolveRes : Option Err) :
    Option Err × List LoadEvent × List (List KeyValue) × List Nat :=
  match loadGo srcs [] [] [] with
  | (some e, tr, merged, ws) => (some e, tr, merged, ws)
  | (none, tr, merged, ws) =>
      (resolveRes, tr ++ [.resolve], merged, ws)

/-- `c.Close()` (config.go lines 160-167): stop each tracked watcher in
registration order; the first failure is returned at once.  `stopRes` is the
oracle for `Watcher.Stop()`; the second component is the list of watchers
`Stop` was actually called on. -/
def cClose (stopRes : Nat → Option Err) : List Nat → Option Err × List Nat
  | [] => (none, [])
  | w :: rest =>
      match stopRes w with
      | some e => (some e, [w])
      | none =>
          let r := cClose stopRes rest
          (r.1, w :: r.2)

/-- `c.Scan(vs...)` per-target loop (config.go lines 144-148): decode the
one snapshot into each target in order, stopping at the first decode error.
`dec i` is the oracle for `unmarshalJSON(data, vs[i])` (the decoder lives
outside src/); a target holds `some data` once overwritten from the
snapshot. -/
def scanGo (data : String) (dec : Nat → Option Err) :
    List (Option String) → Nat → Option Err × List (Option String)
  | [], _ => (none, [])
  | t :: rest, i =>
      match dec i with
      | some e => (some e, t :: rest)
      | none =>
          let r := scanGo data dec rest (i + 1)
          (r.1, some data :: r.2)

/-- `c.Scan(vs...)` (config.go lines 139-150): obtain one serialized
snapshot from `Reader.Source()` — an error is returned before any target is
touched — then decode that same snapshot into every target in order. -/
def cScan (src : Except Err String) (dec : Nat → Option Err)
    (targets : List (Option String)) : Option Err × List (Option String) :=
  match src with
  | .error e => (some e, targets)
  | .ok data => scanGo data dec targets 0

/-! ### Helper lemmas -/

theorem setHeap_self (h : Nat → GoValue) (i : Nat) (v : GoValue) :
    setHeap h i v i = v := by
  simp [setHeap]

theorem setHeap_ne (h : Nat → GoValue) (i j : Nat) (v : GoValue) (hne : j ≠ i) :
    setHeap h i v j = h j := by
  simp [setHeap, hne]

theorem loadAssoc_append_left {β : Type} (m l : List (String × β)) (k : String)
    (b : β) (h : loadAssoc m k = some b) : loadAssoc (m ++ l) k = some b := by
  induction m with
  | nil => simp [loadAssoc] at h
  | cons p rest ih =>
      obtain ⟨k', v⟩ := p
      by_cases hk : k' = k
      · simp [loadAssoc, hk] at h ⊢; exact h
      · simp [loadAssoc, hk] at h ⊢; exact ih h

theorem loadAssoc_append_right {β : Type} (m l : List (String × β)) (k : String)
    (h : loadAssoc m k = none) : loadAssoc (m ++ l) k = loadAssoc l k := by
  induction m with
  | nil => simp
  | cons p rest ih =>
      obtain ⟨k', v⟩ := p
      by_cases hk : k' = k
      · simp [loadAssoc, hk] at h
      · simp [loadAssoc, hk] at h ⊢; exact ih h

theorem loadAssoc_mem {β : Type} (m : List (String × β)) (k : String) (b : β)
    (h : loadAssoc m k = some b) : (k, b) ∈ m := by
  induction m with
  | nil => simp [loadAssoc] at h
  | cons p rest ih =>
      obtain ⟨k', v⟩ := p
      by_cases hk : k' = k
      · simp [loadAssoc, hk] at h
        simp [hk, h]
      · simp [loadAssoc, hk] at h
        exact List.mem_cons_of_mem _ (ih h)

theorem loadAssoc_storeAssoc_self {β : Type} (m : List (String × β)) (k : String)
    (b : β) : loadAssoc (storeAssoc m k b) k = some b := by
  induction m with
  | nil => simp [storeAssoc, loadAssoc]
  | cons p rest ih =>
      obtain ⟨k', v⟩ := p
      by_cases hk : k' = k
      · simp [storeAssoc, hk, loadAssoc]
      · simp [storeAssoc, hk, loadAssoc, ih]

theorem loadAssoc_storeAssoc_ne {β : Type} (m : List (String × β)) (k k' : String)
    (b : β) (hne : k' ≠ k) :
    loadAssoc (storeAssoc m k b) k' = loadAssoc m k' := by
  have hne' : k ≠ k' := fun h => hne h.symm
  induction m with
  | nil => simp [storeAssoc, loadAssoc, hne']
  | cons p rest ih =>
      obtain ⟨k0, v⟩ := p
      by_cases hk : k0 = k
      · subst hk
        simp [storeAssoc, loadAssoc, hne']
      · by_cases hk0 : k0 = k'
        · simp [storeAssoc, hk, loadAssoc, hk0, hne, hne']
        · simp [storeAssoc, hk, loadAssoc, hk0, ih]

theorem cValue_observers (rv : RV) (st : ConfigState) (key : String) :
    (cValue rv st key).2.observers = st.observers := by
  unfold cValue
  cases loadAssoc st.cached key with
  | some i => rfl
  | none => cases rv key with
      | some p => rfl
      | none => rfl

/-! ### C3: lookup semantics of `Value(key)` -/

/-- C3: `Value(key)` returns the cached `Value` when one exists; otherwise,
on a Reader hit the result is cached (a fresh live object, subsequently
found by lookup) and returned; on a Reader miss a fresh error-variant
carrying `ErrNotFound`, whose `Load` yields no payload, is returned and the
state — in particular the cache — is left unchanged.  The statement is
universally quantified over the orchestrator state, so it holds before and
after any unrelated successful load or merge cycle. -/
theorem C3_value_lookup (rv : RV) (st : ConfigState) (key : String) :
    (∀ i, loadAssoc st.cached key = some i →
        cValue rv st key = (ValueRef.ref i, st))
    ∧ (∀ p, loadAssoc st.cached key = none → rv key = some p →
        (cValue rv st key).1 = ValueRef.ref st.heapNext
        ∧ (cValue rv st key).2.cached = st.cached ++ [(key, st.heapNext)]
        ∧ (cValue rv st key).2.heap st.heapNext = GoValue.live p
        ∧ loadAssoc (cValue rv st key).2.cached key = some st.heapNext
        ∧ derefLoad (cValue rv st key).2.heap (cValue rv st key).1 = p)
    ∧ (loadAssoc st.cached key = none → rv key = none →
        cValue rv st key = (ValueRef.errRef errNotFound, st)
        ∧ derefLoad st.heap (ValueRef.errRef errNotFound) = none) := by
  refine ⟨?_, ?_, ?_⟩
  · intro i h
    unfold cValue
    rw [h]
  · intro p h hr
    unfold cValue
    rw [h, hr]
    refine ⟨rfl, rfl, setHeap_self _ _ _, ?_, ?_⟩
    · show loadAssoc (st.cached ++ [(key, st.heapNext)]) key = some st.heapNext
      rw [loadAssoc_append_right _ _ _ h]
      simp [loadAssoc]
    · show derefLoad (setHeap st.heap st.heapNext (GoValue.live p)) (ValueRef.ref st.heapNext) = p
      simp [derefLoad, setHeap_self, GoValue.load]
  · intro h hr
    unfold cValue
    rw [h, hr]
    exact ⟨rfl, rfl⟩

/-- Concrete state for the C3 witness: key `"a"` cached at slot 0. -/
def st3 : ConfigState :=
  ⟨1, fun _ => GoValue.live (some (.pInt 1)), [("a", 0)], []⟩

/-- Concrete Reader lookups for the C3 witness: only `"b"` is present. -/
def rv3 : RV :=
  fun k => if k = "b" then some (some (.pStr "x")) else none

/-- Witness for C3 at a concrete state: key `"a"` cached at slot 0, key
`"b"` served from the Reader, key `"z"` missing. -/
theorem C3_value_lookup_witness :
    cValue rv3 st3 "a" = (ValueRef.ref 0, st3)
    ∧ (cValue rv3 st3 "b").2.cached = [("a", 0), ("b", 1)]
    ∧ cValue rv3 st3 "z" = (ValueRef.errRef errNotFound, st3) := by
  refine ⟨(C3_value_lookup rv3 st3 "a").1 0 rfl, ?_,
    ((C3_value_lookup rv3 st3 "z").2.2 rfl rfl).1⟩
  have h := ((C3_value_lookup rv3 st3 "b").2.1 (some (.pStr "x")) rfl rfl).2.1
  exact h.trans rfl

/-! ### C6: `Watch` registration -/

/-- C6: `Watch(key, o)` returns `ErrNotFound` and does not register the
callback exactly when `Value(key).Load()` yields nil; otherwise it stores
`o` as the single callback for the key — replacing any previously registered
callback, leaving other keys' callbacks untouched — and returns nil. -/
theorem C6_watch_gate (rv : RV) (st : ConfigState) (key : String) (o : Nat) :
    (derefLoad (cValue rv st key).2.heap (cValue rv st key).1 = none →
        (cWatch rv st key o).1 = some errNotFound
        ∧ (cWatch rv st key o).2.observers = st.observers)
    ∧ (derefLoad (cValue rv st key).2.heap (cValue rv st key).1 ≠ none →
        (cWatch rv st key o).1 = none
        ∧ (cWatch rv st key o).2.observers = storeAssoc st.observers key o
        ∧ loadAssoc (cWatch rv st key o).2.observers key = some o
        ∧ ∀ k', k' ≠ key →
            loadAssoc (cWatch rv st key o).2.observers k' = loadAssoc st.observers k') := by
  have hw : cWatch rv st key o =
      if derefLoad (cValue rv st key).2.heap (cValue rv st key).1 = none
      then (some errNotFound, (cValue rv st key).2)
      else (none,
        { (cValue rv st key).2 with
          observers := storeAssoc (cValue rv st key).2.observers key o }) := rfl
  constructor
  · intro h
    rw [hw, if_pos h]
    exact ⟨rfl, cValue_observers rv st key⟩
  · intro h
    rw [hw, if_neg h]
    rw [cValue_observers rv st key]
    exact ⟨rfl, rfl, loadAssoc_storeAssoc_self _ _ _,
      fun k' hk => loadAssoc_storeAssoc_ne _ _ _ _ hk⟩

/-- Concrete state for the C6 witness: key `"a"` cached at slot 0, with an
observer already registered on `"a"`. -/
def st6 : ConfigState :=
  ⟨1, fun _ => GoValue.live (some (.pInt 1)), [("a", 0)], [("a", 7)]⟩

/-- Concrete Reader lookups for the C6 witness: every key absent. -/
def rv6 : RV := fun _ => none

/-- Witness for C6: registering on a present key replaces the prior
callback; registering on a missing key fails and leaves the registry
alone. -/
theorem C6_watch_gate_witness :
    ((cWatch rv6 st6 "a" 9).1 = none
      ∧ loadAssoc (cWatch rv6 st6 "a" 9).2.observers "a" = some 9)
    ∧ ((cWatch rv6 st6 "z" 9).1 = some errNotFound
      ∧ (cWatch rv6 st6 "z" 9).2.observers = [("a", 7)]) := by
  constructor
  · have h := (C6_watch_gate rv6 st6 "a" 9).2 (by decide)
    exact ⟨h.1, h.2.2.1⟩
  · have h := (C6_watch_gate rv6 st6 "z" 9).1 (by decide)
    exact ⟨h.1, h.2⟩

/-! ### C7: `Close` stops watchers in order, fail-fast -/

theorem cClose_all_ok (stopRes : Nat → Option Err) (ws : List Nat)
    (h : ∀ w ∈ ws, stopRes w = none) : cClose stopRes ws = (none, ws) := by
  induction ws with
  | nil => rfl
  | cons w rest ih =>
      have hw : stopRes w = none := h w (List.mem_cons_self w rest)
      have hr := ih (fun x hx => h x (List.mem_cons_of_mem w hx))
      simp [cClose, hw, hr]

theorem cClose_abort (stopRes : Nat → Option Err) :
    ∀ (pre : List Nat) (w : Nat) (post : List Nat) (e : Err),
      (∀ x ∈ pre, stopRes x = none) → stopRes w = some e →
      cClose stopRes (pre ++ w :: post) = (some e, pre ++ [w]) := by
  intro pre
  induction pre with
  | nil =>
      intro w post e _ hw
      simp [cClose, hw]
  | cons x rest ih =>
      intro w post e hpre hw
      have hx : stopRes x = none := hpre x (List.mem_cons_self x rest)
      have hr := ih w post e (fun y hy => hpre y (List.mem_cons_of_mem x hy)) hw
      simp [cClose, hx, hr]

/-- C7: `Close()` calls `Stop` on the tracked watchers in registration
order; the first `Stop` failure is returned immediately, with `Stop` having
been called exactly on the preceding watchers and the failing one, and every
later watcher left un-stopped; if every `Stop` succeeds (in particular with
no watchers at all), `Close` returns nil. -/
theorem C7_close_fail_fast (stopRes : Nat → Option Err) (ws : List Nat) :
    ((∀ w ∈ ws, stopRes w = none) → cClose stopRes ws = (none, ws))
    ∧ (∀ pre w post e, ws = pre ++ w :: post →
        (∀ x ∈ pre, stopRes x = none) → stopRes w = some e →
        cClose stopRes ws = (some e, pre ++ [w])) := by
  refine ⟨cClose_all_ok stopRes ws, ?_⟩
  intro pre w post e hws hpre hw
  rw [hws]
  exact cClose_abort stopRes pre w post e hpre hw

/-- Concrete `Stop` results for the C7 witness: watcher 2 fails. -/
def stopRes7 : Nat → Option Err :=
  fun w => if w = 2 then some ⟨"stop failed"⟩ else none

/-- Witness for C7: with watchers `[1, 2, 3]` and watcher 2 failing to
stop, `Close` returns that error having called `Stop` only on 1 and 2;
with watchers `[1, 3]` everything stops and nil is returned. -/
theorem C7_close_fail_fast_witness :
    cClose stopRes7 [1, 2, 3] = (some ⟨"stop failed"⟩, [1, 2])
    ∧ cClose stopRes7 [1, 3] = (none, [1, 3]) := by
  constructor
  · exact (C7_close_fail_fast stopRes7 [1, 2, 3]).2 [1] 2 [3]
      ⟨"stop failed"⟩ rfl (by decide) (by decide)
  · exact (C7_close_fail_fast stopRes7 [1, 3]).1 (by decide)

/-! ### C8 and C10: `Scan` semantics -/

theorem scanGo_all_ok (data : String) (dec : Nat → Option Err) :
    ∀ (ts : List (Option String)) (i : Nat),
      (∀ j, j < ts.length → dec (i + j) = none) →
      scanGo data dec ts i = (none, ts.map (fun _ => some data)) := by
  intro ts
  induction ts with
  | nil => intro i _; rfl
  | cons t rest ih =>
      intro i h
      have h0 : dec i = none := by
        have := h 0 (Nat.succ_pos _)
        simpa using this
      have hr := ih (i + 1) (fun j hj => by
        have := h (j + 1) (Nat.succ_lt_succ hj)
        simpa [Nat.add_assoc, Nat.add_comm 1 j] using this)
      simp [scanGo, h0, hr]

/-- C8: `Scan(targets...)` takes one serialized snapshot from
`Reader.Source()` — a `Source` error is returned with no target modified —
and on full decode success every supplied target has been overwritten with
that same complete snapshot, in argument order. -/
theorem C8_scan_snapshot (dec : Nat → Option Err) (targets : List (Option String)) :
    (∀ e, cScan (.error e) dec targets = (some e, targets))
    ∧ (∀ data, (∀ j, j < targets.length → dec j = none) →
        cScan (.ok data) dec targets = (none, targets.map (fun _ => some data))) := by
  constructor
  · intro e; rfl
  · intro data h
    show scanGo data dec targets 0 = (none, targets.map (fun _ => some data))
    exact scanGo_all_ok data dec targets 0 (fun j hj => by
      have := h j hj
      simpa using this)

/-- Witness for C8: a failing `Reader.Source` leaves both targets alone; a
successful snapshot overwrites both targets with the same bytes. -/
theorem C8_scan_snapshot_witness :
    cScan (Except.error ⟨"src down"⟩) (fun _ => none) [none, some "old"]
      = (some ⟨"src down"⟩, [none, some "old"])
    ∧ cScan (Except.ok "snap") (fun _ => none) [none, some "old"]
      = (none, [some "snap", some "snap"]) := by
  constructor
  · exact (C8_scan_snapshot (fun _ => none) [none, some "old"]).1 ⟨"src down"⟩
  · exact (C8_scan_snapshot (fun _ => none) [none, some "old"]).2 "snap"
      (fun j _ => rfl)

theorem scanGo_abort (data : String) (dec : Nat → Option Err) :
    ∀ (ts : List (Option String)) (i m : Nat) (e : Err),
      m < ts.length → (∀ j, j < m → dec (i + j) = none) → dec (i + m) = some e →
      scanGo data dec ts i
        = (some e, (ts.take m).map (fun _ => some data) ++ ts.drop m) := by
  intro ts
  induction ts with
  | nil => intro i m e hm; exact absurd hm (Nat.not_lt_zero m)
  | cons t rest ih =>
      intro i m e hm hok hfail
      cases m with
      | zero =>
          have h0 : dec i = some e := by simpa using hfail
          simp [scanGo, h0]
      | succ m =>
          have h0 : dec i = none := by
            have := hok 0 (Nat.succ_pos _)
            simpa using this
          have hr := ih (i + 1) m e (Nat.lt_of_succ_lt_succ hm)
            (fun j hj => by
              have := hok (j + 1) (Nat.succ_lt_succ hj)
              simpa [Nat.add_assoc, Nat.add_comm 1 j] using this)
            (by
              have : i + 1 + m = i + (m + 1) := by omega
              rw [this]
              exact hfail)
          simp [scanGo, h0, hr]

/-- C10: `Scan` is not atomic across its targets: when decoding the
snapshot into the target at position `m` fails, that decode error is
returned with every target before position `m` already fully overwritten by
the snapshot and every target at or after position `m` left unmodified. -/
theorem C10_scan_partial (data : String) (dec : Nat → Option Err)
    (targets : List (Option String)) (m : Nat) (e : Err)
    (hm : m < targets.length) (hok : ∀ j, j < m → dec j = none)
    (hfail : dec m = some e) :
    cScan (.ok data) dec targets
      = (some e, (targets.take m).map (fun _ => some data) ++ targets.drop m) := by
  show scanGo data dec targets 0 = _
  exact scanGo_abort data dec targets 0 m e hm
    (fun j hj => by simpa using hok j hj) (by simpa using hfail)

/-- Concrete decode results for the C10 witness: the second target fails. -/
def dec10 : Nat → Option Err :=
  fun j => if j = 1 then some ⟨"decode failed"⟩ else none

/-- Witness for C10: with three targets and the second decode failing, the
first target is already overwritten while the second and third keep their
prior contents. -/
theorem C10_scan_partial_witness :
    cScan (Except.ok "snap") dec10 [none, none, some "old"]
      = (some ⟨"decode failed"⟩, [some "snap", none, some "old"]) := by
  exact C10_scan_partial "snap" dec10 [none, none, some "old"] 1
    ⟨"decode failed"⟩ (by decide)
    (fun j hj => by
      have h0 : j = 0 := Nat.lt_one_iff.mp hj
      subst h0
      rfl) (by decide)

/-! ### C4: per-iteration error policy of the reconciliation loop -/

/-- C4: one iteration of the reconciliation loop: a cancellation error from
`Watcher.Next()` returns from the loop with no backoff sleep, no merge and
no state change — and when it heads a schedule, the loop performs no
further iterations at all; any other `Next()` error sleeps one second and
retries without attempting a merge; a `Merge` failure skips `Resolve` and
the cache scan; a `Resolve` failure skips the cache scan, leaving the
cached view untouched.  In every case the iteration yields a next state and
an empty or realized invocation list — no error is escalated to any
caller. -/
theorem C4_watch_error_policy (o : IterOracle) (st : ConfigState) :
    (o.next = .cancelled →
        watchIter o st = (⟨true, 0, false, false, false⟩, st, []))
    ∧ (o.next = .nextErr →
        watchIter o st = (⟨false, 1, false, false, false⟩, st, []))
    ∧ (∀ kvs, o.next = .ok kvs → o.mergeFails = true →
        watchIter o st = (⟨false, 0, true, false, false⟩, st, []))
    ∧ (∀ kvs, o.next = .ok kvs → o.mergeFails = false → o.resolveFails = true →
        watchIter o st = (⟨false, 0, true, true, false⟩, st, []))
    ∧ (∀ rest, o.next = .cancelled →
        watchLoop (o :: rest) st = (st, [⟨true, 0, false, false, false⟩], [])) := by
  refine ⟨?_, ?_, ?_, ?_, ?_⟩
  · intro h
    unfold watchIter
    rw [h]
  · intro h
    unfold watchIter
    rw [h]
  · intro kvs h hm
    unfold watchIter
    rw [h]
    simp [hm]
  · intro kvs h hm hr
    unfold watchIter
    rw [h]
    simp [hm, hr]
  · intro rest h
    have hi : watchIter o st = (⟨true, 0, false, false, false⟩, st, []) := by
      unfold watchIter
      rw [h]
    simp [watchLoop, hi]

/-- Concrete iteration oracles for the C4 witness. -/
def orcCancel : IterOracle := ⟨.cancelled, false, false, fun _ => none⟩

/-- Concrete iteration oracle whose `Next` fails transiently. -/
def orcTransient : IterOracle := ⟨.nextErr, false, false, fun _ => none⟩

/-- Concrete iteration oracle whose `Merge` fails. -/
def orcMergeFail : IterOracle := ⟨.ok ["kv"], true, false, fun _ => none⟩

/-- Concrete iteration oracle whose `Resolve` fails. -/
def orcResolveFail : IterOracle := ⟨.ok ["kv"], false, true, fun _ => none⟩

/-- Witness for C4 at a concrete state: each error path of one iteration,
and a schedule headed by a cancellation performing nothing further. -/
theorem C4_watch_error_policy_witness :
    watchIter orcCancel st3 = (⟨true, 0, false, false, false⟩, st3, [])
    ∧ watchIter orcTransient st3 = (⟨false, 1, false, false, false⟩, st3, [])
    ∧ watchIter orcMergeFail st3 = (⟨false, 0, true, false, false⟩, st3, [])
    ∧ watchIter orcResolveFail st3 = (⟨false, 0, true, true, false⟩, st3, [])
    ∧ watchLoop [orcCancel, orcMergeFail] st3
        = (st3, [⟨true, 0, false, false, false⟩], []) := by
  refine ⟨(C4_watch_error_policy orcCancel st3).1 rfl,
    (C4_watch_error_policy orcTransient st3).2.1 rfl,
    (C4_watch_error_policy orcMergeFail st3).2.2.1 ["kv"] rfl rfl,
    (C4_watch_error_policy orcResolveFail st3).2.2.2.1 ["kv"] rfl rfl rfl,
    (C4_watch_error_policy orcCancel st3).2.2.2.2 [orcMergeFail] rfl⟩

/-! ### C5: `Load` processes sources in order and fails fast -/

/-- The fragments a source's successful `Load()` yields. -/
def srcKvs (s : SourceModel) : List KeyValue :=
  match s.loadRes with
  | .ok kvs => kvs
  | .error _ => []

/-- The watcher a source's successful `Watch()` yields. -/
def srcW (s : SourceModel) : Nat :=
  match s.watchRes with
  | .ok w => w
  | .error _ => 0

/-- The event trace `Load` produces for one fully successful source. -/
def srcTrace (s : SourceModel) : List LoadEvent :=
  [.srcLoad (srcKvs s), .merge (srcKvs s), .watchSetup (srcW s), .spawn (srcW s)]

/-- A source on which every step of `Load`'s per-source work succeeds. -/
def okSource (s : SourceModel) : Prop :=
  (∃ kvs, s.loadRes = .ok kvs) ∧ s.mergeRes = none ∧ ∃ w, s.watchRes = .ok w

theorem loadGo_ok_front :
    ∀ (pre rest : List SourceModel) (tr : List LoadEvent)
      (merged : List (List KeyValue)) (ws : List Nat),
      (∀ s ∈ pre, okSource s) →
      loadGo (pre ++ rest) tr merged ws
        = loadGo rest (tr ++ pre.flatMap srcTrace)
            (merged ++ pre.map srcKvs) (ws ++ pre.map srcW) := by
  intro pre
  induction pre with
  | nil => intro rest tr merged ws _; simp
  | cons s pre ih =>
      intro rest tr merged ws h
      have hs : okSource s := h s (List.mem_cons_self s pre)
      obtain ⟨⟨kvs, hload⟩, hmerge, ⟨w, hwatch⟩⟩ := hs
      have hkvs : srcKvs s = kvs := by simp [srcKvs, hload]
      have hw : srcW s = w := by simp [srcW, hwatch]
      show loadGo (s :: (pre ++ rest)) tr merged ws = _
      rw [loadGo, hload, hmerge, hwatch]
      dsimp only
      rw [ih rest _ _ _ (fun x hx => h x (List.mem_cons_of_mem s hx))]
      simp [srcTrace, hkvs, hw]

/-- C5: `Load()` processes the configured sources in order, performing for
each one `Source.Load`, then `Reader.Merge`, then `Source.Watch` (recording
the watcher and spawning its loop), as the event trace shows.  The first
error from any step aborts `Load` and is returned, with already-merged
sources kept; only when every source succeeds is `Reader.Resolve()` called,
exactly once and after all sources, and its error (or nil) returned. -/
theorem C5_load_order (srcs : List SourceModel) (resolveRes : Option Err) :
    ((∀ s ∈ srcs, okSource s) →
        cLoad srcs resolveRes
          = (resolveRes, srcs.flatMap srcTrace ++ [.resolve],
              srcs.map srcKvs, srcs.map srcW)
        ∧ (srcs.flatMap srcTrace ++ [LoadEvent.resolve]).count LoadEvent.resolve = 1)
    ∧ (∀ pre s post e, srcs = pre ++ s :: post → (∀ x ∈ pre, okSource x) →
        s.loadRes = .error e →
        cLoad srcs resolveRes
          = (some e, pre.flatMap srcTrace, pre.map srcKvs, pre.map srcW))
    ∧ (∀ pre s post e kvs, srcs = pre ++ s :: post → (∀ x ∈ pre, okSource x) →
        s.loadRes = .ok kvs → s.mergeRes = some e →
        cLoad srcs resolveRes
          = (some e, pre.flatMap srcTrace ++ [.srcLoad kvs, .merge kvs],
              pre.map srcKvs, pre.map srcW))
    ∧ (∀ pre s post e kvs, srcs = pre ++ s :: post → (∀ x ∈ pre, okSource x) →
        s.loadRes = .ok kvs → s.mergeRes = none → s.watchRes = .error e →
        cLoad srcs resolveRes
          = (some e, pre.flatMap srcTrace ++ [.srcLoad kvs, .merge kvs],
              pre.map srcKvs ++ [kvs], pre.map srcW)) := by
  have hnores : ∀ l : List SourceModel,
      LoadEvent.resolve ∉ l.flatMap srcTrace := by
    intro l
    induction l with
    | nil => simp
    | cons s rest ih =>
        simp [srcTrace, ih]
  refine ⟨?_, ?_, ?_, ?_⟩
  · intro h
    have hgo := loadGo_ok_front srcs [] [] [] [] h
    constructor
    · unfold cLoad
      rw [List.append_nil] at hgo
      rw [hgo]
      simp [loadGo]
    · rw [List.count_append]
      rw [List.count_eq_zero.mpr (hnores srcs)]
      simp
  · intro pre s post e hsrcs hpre hload
    rw [hsrcs]
    unfold cLoad
    rw [loadGo_ok_front pre (s :: post) [] [] [] hpre]
    rw [loadGo, hload]
    simp
  · intro pre s post e kvs hsrcs hpre hload hmerge
    rw [hsrcs]
    unfold cLoad
    rw [loadGo_ok_front pre (s :: post) [] [] [] hpre]
    rw [loadGo, hload, hmerge]
    simp
  · intro pre s post e kvs hsrcs hpre hload hmerge hwatch
    rw [hsrcs]
    unfold cLoad
    rw [loadGo_ok_front pre (s :: post) [] [] [] hpre]
    rw [loadGo, hload, hmerge, hwatch]
    simp

/-- A fully successful concrete source for the C5 witness. -/
def srcOk : SourceModel :=
  ⟨.ok [⟨"a", "1", "json"⟩], none, .ok 11⟩

/-- A concrete source whose Reader merge fails, for the C5 witness. -/
def srcBadMerge : SourceModel :=
  ⟨.ok [⟨"b", "2", "yaml"⟩], some ⟨"merge failed"⟩, .ok 12⟩

/-- Witness for C5: a successful two-step load resolving once at the end,
and a load aborted by the second source's merge failure with the first
source's batch kept merged. -/
theorem C5_load_order_witness :
    cLoad [srcOk] none
      = (none, [.srcLoad [⟨"a", "1", "json"⟩], .merge [⟨"a", "1", "json"⟩],
          .watchSetup 11, .spawn 11, .resolve], [[⟨"a", "1", "json"⟩]], [11])
    ∧ cLoad [srcOk, srcBadMerge] none
      = (some ⟨"merge failed"⟩,
          [.srcLoad [⟨"a", "1", "json"⟩], .merge [⟨"a", "1", "json"⟩],
            .watchSetup 11, .spawn 11,
            .srcLoad [⟨"b", "2", "yaml"⟩], .merge [⟨"b", "2", "yaml"⟩]],
          [[⟨"a", "1", "json"⟩]], [11]) := by
  constructor
  · have h := ((C5_load_order [srcOk] none).1 (by
      intro s hs
      simp at hs
      subst hs
      exact ⟨⟨_, rfl⟩, rfl, ⟨_, rfl⟩⟩)).1
    rw [h]
    rfl
  · have h := (C5_load_order [srcOk, srcBadMerge] none).2.2.1 [srcOk]
      srcBadMerge [] ⟨"merge failed"⟩ [⟨"b", "2", "yaml"⟩] rfl (by
        intro s hs
        simp at hs
        subst hs
        exact ⟨⟨_, rfl⟩, rfl, ⟨_, rfl⟩⟩) rfl rfl
    rw [h]
    rfl

/-! ### Lemmas on the cache scan of the reconciliation loop -/

theorem rangeScanGo_heap_stable (rv : RV) (obs : List (String × Nat)) :
    ∀ (entries : List (String × ValueId)) (heap : Nat → GoValue) (i : Nat),
      i ∉ entries.map Prod.snd →
      (rangeScanGo rv obs entries heap).1 i = heap i := by
  intro entries
  induction entries with
  | nil => intro heap i _; rfl
  | cons e rest ih =>
      obtain ⟨k', i'⟩ := e
      intro heap i hi
      rw [List.map_cons, List.mem_cons] at hi
      push_neg at hi
      cases hrv : rv k' with
      | none =>
          simp only [rangeScanGo, hrv]
          exact ih heap i hi.2
      | some np =>
          by_cases hc : typeOf np = typeOf (heap i').load
              ∧ ¬ deepEqual np (heap i').load
          · simp only [rangeScanGo, hrv, if_pos hc]
            rw [ih _ i hi.2]
            exact setHeap_ne heap i' i _ hi.1
          · simp only [rangeScanGo, hrv, if_neg hc]
            exact ih heap i hi.2

theorem rangeScanGo_inv_keys (rv : RV) (obs : List (String × Nat)) :
    ∀ (entries : List (String × ValueId)) (heap : Nat → GoValue)
      (inv : Invocation), inv ∈ (rangeScanGo rv obs entries heap).2 →
      inv.key ∈ entries.map Prod.fst := by
  intro entries
  induction entries with
  | nil => intro heap inv h; simp [rangeScanGo] at h
  | cons e rest ih =>
      obtain ⟨k', i'⟩ := e
      intro heap inv h
      rw [List.map_cons, List.mem_cons]
      cases hrv : rv k' with
      | none =>
          simp only [rangeScanGo, hrv] at h
          exact Or.inr (ih heap inv h)
      | some np =>
          by_cases hc : typeOf np = typeOf (heap i').load
              ∧ ¬ deepEqual np (heap i').load
          · simp only [rangeScanGo, hrv, if_pos hc] at h
            rw [List.mem_append] at h
            rcases h with h | h
            · cases hobs : loadAssoc obs k' with
              | none => rw [hobs] at h; simp at h
              | some oid =>
                  rw [hobs] at h
                  rw [List.mem_singleton] at h
                  subst h
                  exact Or.inl rfl
            · exact Or.inr (ih _ inv h)
          · simp only [rangeScanGo, hrv, if_neg hc] at h
            exact Or.inr (ih heap inv h)

theorem rangeScanGo_mem_spec (rv : RV) (obs : List (String × Nat))
    (k : String) (i : ValueId) :
    ∀ (entries : List (String × ValueId)) (heap : Nat → GoValue),
      (entries.map Prod.fst).Nodup → (entries.map Prod.snd).Nodup →
      (k, i) ∈ entries →
      ((∀ np, rv k = some np → typeOf np = typeOf (heap i).load →
          ¬ deepEqual np (heap i).load →
          (rangeScanGo rv obs entries heap).1 i = (heap i).store np
          ∧ ∀ oid, loadAssoc obs k = some oid →
              Invocation.mk k oid np ∈ (rangeScanGo rv obs entries heap).2)
       ∧ ((¬ ∃ np, rv k = some np ∧ typeOf np = typeOf (heap i).load
              ∧ ¬ deepEqual np (heap i).load) →
          (rangeScanGo rv obs entries heap).1 i = heap i
          ∧ ∀ oid p, Invocation.mk k oid p ∉ (rangeScanGo rv obs entries heap).2)) := by
  intro entries
  induction entries with
  | nil => intro heap _ _ hmem; simp at hmem
  | cons e rest ih =>
      obtain ⟨k', i'⟩ := e
      intro heap hkeys hids hmem
      rw [List.map_cons, List.nodup_cons] at hkeys hids
      rw [List.mem_cons] at hmem
      rcases hmem with hmem | hmem
      · -- the entry under scrutiny is the head of the cache
        rw [Prod.mk.injEq] at hmem
        obtain ⟨hk, hi⟩ := hmem
        subst hk
        subst hi
        have hirest : i ∉ rest.map Prod.snd := hids.1
        have hkrest : k ∉ rest.map Prod.fst := hkeys.1
        constructor
        · intro np hrv htype hdeep
          simp only [rangeScanGo, hrv, if_pos (And.intro htype hdeep)]
          constructor
          · rw [rangeScanGo_heap_stable rv obs rest _ i hirest]
            exact setHeap_self heap i _
          · intro oid hobs
            rw [hobs]
            exact List.mem_append_left _ (List.mem_singleton.mpr rfl)
        · intro hcond
          cases hrv : rv k with
          | none =>
              simp only [rangeScanGo, hrv]
              refine ⟨rangeScanGo_heap_stable rv obs rest heap i hirest, ?_⟩
              intro oid p hinvs
              exact hkrest (rangeScanGo_inv_keys rv obs rest heap _ hinvs)
          | some np =>
              have hc : ¬ (typeOf np = typeOf (heap i).load
                  ∧ ¬ deepEqual np (heap i).load) := by
                intro hc
                exact hcond ⟨np, hrv, hc.1, hc.2⟩
              simp only [rangeScanGo, hrv, if_neg hc]
              refine ⟨rangeScanGo_heap_stable rv obs rest heap i hirest, ?_⟩
              intro oid p hinvs
              exact hkrest (rangeScanGo_inv_keys rv obs rest heap _ hinvs)
      · -- the entry under scrutiny is further down the cache
        have hkmem : k ∈ rest.map Prod.fst := List.mem_map.mpr ⟨(k, i), hmem, rfl⟩
        have himem : i ∈ rest.map Prod.snd := List.mem_map.mpr ⟨(k, i), hmem, rfl⟩
        have hkne : k' ≠ k := by
          intro h
          rw [h] at hkeys
          exact hkeys.1 hkmem
        have hine : i' ≠ i := by
          intro h
          rw [h] at hids
          exact hids.1 himem
        have hrec : ∀ heap1 : Nat → GoValue, heap1 i = heap i →
            ((∀ np, rv k = some np → typeOf np = typeOf (heap i).load →
                ¬ deepEqual np (heap i).load →
                (rangeScanGo rv obs rest heap1).1 i = (heap i).store np
                ∧ ∀ oid, loadAssoc obs k = some oid →
                    Invocation.mk k oid np ∈ (rangeScanGo rv obs rest heap1).2)
             ∧ ((¬ ∃ np, rv k = some np ∧ typeOf np = typeOf (heap i).load
                    ∧ ¬ deepEqual np (heap i).load) →
                (rangeScanGo rv obs rest heap1).1 i = heap i
                ∧ ∀ oid p,
                    Invocation.mk k oid p ∉ (rangeScanGo rv obs rest heap1).2)) := by
          intro heap1 hh
          have := ih heap1 hkeys.2 hids.2 hmem
          rw [hh] at this
          exact this
        cases hrv' : rv k' with
        | none =>
            simp only [rangeScanGo, hrv']
            exact hrec heap rfl
        | some np' =>
            by_cases hc : typeOf np' = typeOf (heap i').load
                ∧ ¬ deepEqual np' (heap i').load
            · simp only [rangeScanGo, hrv', if_pos hc]
              have h1 : setHeap heap i' ((heap i').store np') i = heap i :=
                setHeap_ne heap i' i _ hine.symm
              have hr := hrec _ h1
              constructor
              · intro np hrv htype hdeep
                refine ⟨(hr.1 np hrv htype hdeep).1, ?_⟩
                intro oid hobs
                exact List.mem_append_right _ ((hr.1 np hrv htype hdeep).2 oid hobs)
              · intro hcond
                refine ⟨(hr.2 hcond).1, ?_⟩
                intro oid p hinvs
                rw [List.mem_append] at hinvs
                rcases hinvs with hinvs | hinvs
                · cases hobs : loadAssoc obs k' with
                  | none => rw [hobs] at hinvs; simp at hinvs
                  | some oid' =>
                      rw [hobs] at hinvs
                      rw [List.mem_singleton] at hinvs
                      exact hkne (congrArg Invocation.key hinvs).symm
                · exact (hr.2 hcond).2 oid p hinvs
            · simp only [rangeScanGo, hrv', if_neg hc]
              exact hrec heap rfl

/-! ### C1: type-gated update and notification -/

/-- C1: in one reconciliation cycle, for a key `k` cached at object `i`
holding payload `q` with observer `oid` registered: the cached payload is
stored through and the observer invoked exactly when the Reader reports the
key present with a payload of the same dynamic type that is not deeply
equal to `q`; in particular when the fresh payload's type differs from the
cached one, neither the cached payload nor the observers are touched for
that key. -/
theorem C1_type_gated_notification (rv : RV) (st : ConfigState) (k : String)
    (i : ValueId) (q : Option Payload) (oid : Nat)
    (hkeys : (st.cached.map Prod.fst).Nodup)
    (hids : (st.cached.map Prod.snd).Nodup)
    (hmem : (k, i) ∈ st.cached)
    (hlive : st.heap i = GoValue.live q)
    (hobs : loadAssoc st.observers k = some oid) :
    (∀ np, rv k = some np → typeOf np = typeOf q → np ≠ q →
        (rangeScan rv st).1.heap i = GoValue.live np
        ∧ Invocation.mk k oid np ∈ (rangeScan rv st).2)
    ∧ ((¬ ∃ np, rv k = some np ∧ typeOf np = typeOf q ∧ np ≠ q) →
        (rangeScan rv st).1.heap i = GoValue.live q
        ∧ ∀ oid' p, Invocation.mk k oid' p ∉ (rangeScan rv st).2)
    ∧ (∀ np, rv k = some np → typeOf np ≠ typeOf q →
        (rangeScan rv st).1.heap i = GoValue.live q
        ∧ ∀ oid' p, Invocation.mk k oid' p ∉ (rangeScan rv st).2) := by
  have hspec := rangeScanGo_mem_spec rv st.observers k i st.cached st.heap
    hkeys hids hmem
  rw [hlive] at hspec
  have hload : (GoValue.live q).load = q := rfl
  rw [hload] at hspec
  have hscan1 : (rangeScan rv st).1.heap
      = (rangeScanGo rv st.observers st.cached st.heap).1 := rfl
  have hscan2 : (rangeScan rv st).2
      = (rangeScanGo rv st.observers st.cached st.heap).2 := rfl
  refine ⟨?_, ?_, ?_⟩
  · intro np hrv htype hdeep
    have h := hspec.1 np hrv htype (by
      intro h
      exact hdeep h)
    rw [hscan1, hscan2]
    refine ⟨?_, h.2 oid hobs⟩
    rw [h.1]
    rfl
  · intro hcond
    have h := hspec.2 (by
      intro hex
      obtain ⟨np, hrv, htype, hdeep⟩ := hex
      exact hcond ⟨np, hrv, htype, hdeep⟩)
    rw [hscan1, hscan2]
    exact ⟨by rw [h.1], fun oid' p => h.2 oid' p⟩
  · intro np hrv htype
    have h := hspec.2 (by
      intro hex
      obtain ⟨np', hrv', htype', _⟩ := hex
      rw [hrv] at hrv'
      cases hrv'
      exact htype htype')
    rw [hscan1, hscan2]
    exact ⟨by rw [h.1], fun oid' p => h.2 oid' p⟩

/-- Concrete state for the C1 and C9 witnesses: `"a"` cached at object 0
holding an int, `"b"` cached at object 1 holding a string, observers on
both. -/
def stC1 : ConfigState where
  heapNext := 2
  heap := fun j =>
    if j = 0 then GoValue.live (some (.pInt 1))
    else if j = 1 then GoValue.live (some (.pStr "s"))
    else GoValue.errv errNotFound
  cached := [("a", 0), ("b", 1)]
  observers := [("a", 7), ("b", 8)]

/-- Concrete Reader lookups for the C1 and C9 witnesses: `"a"` changed to a
different int (type-stable), `"b"` changed to an int (type change). -/
def rvC1 : RV :=
  fun k =>
    if k = "a" then some (some (.pInt 2))
    else if k = "b" then some (some (.pInt 9))
    else none

/-- Witness for C1: the type-stable change on `"a"` is stored and notified;
the type change on `"b"` leaves the cached payload alone and fires no
observer for `"b"`. -/
theorem C1_type_gated_notification_witness :
    (rangeScan rvC1 stC1).1.heap 0 = GoValue.live (some (.pInt 2))
    ∧ Invocation.mk "a" 7 (some (.pInt 2)) ∈ (rangeScan rvC1 stC1).2
    ∧ (rangeScan rvC1 stC1).1.heap 1 = GoValue.live (some (.pStr "s"))
    ∧ Invocation.mk "b" 8 (some (.pInt 9)) ∉ (rangeScan rvC1 stC1).2 := by
  have ha := (C1_type_gated_notification rvC1 stC1 "a" 0 (some (.pInt 1)) 7
    (by decide) (by decide) (by decide) rfl rfl).1 (some (.pInt 2))
    rfl (by decide) (by decide)
  have hb := (C1_type_gated_notification rvC1 stC1 "b" 1 (some (.pStr "s")) 8
    (by decide) (by decide) (by decide) rfl rfl).2.2 (some (.pInt 9))
    rfl (by decide)
  exact ⟨ha.1, ha.2, hb.1, hb.2 8 (some (.pInt 9))⟩

/-! ### C2: cached `Value` objects keep their identity -/

/-- `w` is obtainable from `v` by in-place `Store` calls alone (possibly
none): the object is never replaced, only its payload mutated. -/
def storeReach (v w : GoValue) : Prop :=
  v = w ∨ ∃ p, w = v.store p

theorem storeReach_trans {u v w : GoValue} (h1 : storeReach u v)
    (h2 : storeReach v w) : storeReach u w := by
  cases u with
  | live q =>
      have hv : ∃ r, v = GoValue.live r := by
        rcases h1 with h | ⟨p, hp⟩
        · exact ⟨q, h.symm⟩
        · exact ⟨p, hp⟩
      obtain ⟨r, hv⟩ := hv
      subst hv
      rcases h2 with h | ⟨s, hs⟩
      · rw [← h]
        exact Or.inr ⟨r, rfl⟩
      · rw [hs]
        exact Or.inr ⟨s, rfl⟩
  | errv e =>
      have hv : v = GoValue.errv e := by
        rcases h1 with h | ⟨p, hp⟩
        · exact h.symm
        · rw [hp]; rfl
      subst hv
      rcases h2 with h | ⟨p, hp⟩
      · rw [← h]
        exact Or.inl rfl
      · rw [hp]
        exact Or.inl rfl

/-- Well-formedness of the orchestrator state: every cached object id
refers to an already-allocated heap slot. -/
def cacheWF (st : ConfigState) : Prop :=
  ∀ e ∈ st.cached, e.2 < st.heapNext

/-- One state-touching operation of the orchestrator: a reconciliation-loop
iteration, a public `Value` lookup, or a public `Watch` registration. -/
inductive Op
  | iter (o : IterOracle)
  | getValue (rv : RV) (key : String)
  | watchReg (rv : RV) (key : String) (oid : Nat)

/-- The state after one operation. -/
def applyOp : Op → ConfigState → ConfigState
  | .iter o, st => (watchIter o st).2.1
  | .getValue rv key, st => (cValue rv st key).2
  | .watchReg rv key oid, st => (cWatch rv st key oid).2

/-- The state after a sequence of operations. -/
def run : List Op → ConfigState → ConfigState
  | [], st => st
  | op :: rest, st => run rest (applyOp op st)

theorem rangeScanGo_storeReach (rv : RV) (obs : List (String × Nat)) :
    ∀ (entries : List (String × ValueId)) (heap : Nat → GoValue) (i : Nat),
      storeReach (heap i) ((rangeScanGo rv obs entries heap).1 i) := by
  intro entries
  induction entries with
  | nil => intro heap i; exact Or.inl rfl
  | cons e rest ih =>
      obtain ⟨k', i'⟩ := e
      intro heap i
      cases hrv : rv k' with
      | none =>
          simp only [rangeScanGo, hrv]
          exact ih heap i
      | some np =>
          by_cases hc : typeOf np = typeOf (heap i').load
              ∧ ¬ deepEqual np (heap i').load
          · simp only [rangeScanGo, hrv, if_pos hc]
            have h1 : storeReach (heap i)
                (setHeap heap i' ((heap i').store np) i) := by
              by_cases hii : i = i'
              · subst hii
                rw [setHeap_self]
                exact Or.inr ⟨np, rfl⟩
              · rw [setHeap_ne _ _ _ _ hii]
                exact Or.inl rfl
            exact storeReach_trans h1 (ih _ i)
          · simp only [rangeScanGo, hrv, if_neg hc]
            exact ih heap i

theorem watchIter_state_shape (o : IterOracle) (st : ConfigState) :
    (watchIter o st).2.1.cached = st.cached
    ∧ (watchIter o st).2.1.heapNext = st.heapNext
    ∧ (watchIter o st).2.1.observers = st.observers
    ∧ ∀ i, storeReach (st.heap i) ((watchIter o st).2.1.heap i) := by
  cases hn : o.next with
  | cancelled =>
      simp only [watchIter, hn]
      exact ⟨by trivial, by trivial, by trivial, fun i => Or.inl rfl⟩
  | nextErr =>
      simp only [watchIter, hn]
      exact ⟨by trivial, by trivial, by trivial, fun i => Or.inl rfl⟩
  | ok kvs =>
      simp only [watchIter, hn]
      cases hm : o.mergeFails with
      | true =>
          simp only [hm, if_pos]
          exact ⟨by trivial, by trivial, by trivial, fun i => Or.inl rfl⟩
      | false =>
          cases hr : o.resolveFails with
          | true =>
              simp only [hm, hr]
              exact ⟨by trivial, by trivial, by trivial, fun i => Or.inl rfl⟩
          | false =>
              simp only [hm, hr, rangeScan]
              exact ⟨by trivial, by trivial, by trivial,
                fun i => rangeScanGo_storeReach o.rv st.observers st.cached st.heap i⟩

theorem cValue_state_shape (rv : RV) (st : ConfigState) (key : String) :
    st.heapNext ≤ (cValue rv st key).2.heapNext
    ∧ (cValue rv st key).2.observers = st.observers
    ∧ (∀ i, i < st.heapNext → (cValue rv st key).2.heap i = st.heap i)
    ∧ (∀ k0 i0, loadAssoc st.cached k0 = some i0 →
        loadAssoc (cValue rv st key).2.cached k0 = some i0)
    ∧ (cacheWF st → cacheWF (cValue rv st key).2) := by
  unfold cValue
  cases hc : loadAssoc st.cached key with
  | some i =>
      exact ⟨Nat.le_refl _, rfl, fun _ _ => rfl, fun _ _ h => h, fun h => h⟩
  | none =>
      cases hrv : rv key with
      | some p =>
          refine ⟨Nat.le_succ _, rfl, ?_, ?_, ?_⟩
          · intro i hi
            exact setHeap_ne st.heap st.heapNext i _ (Nat.ne_of_lt hi)
          · intro k0 i0 h
            exact loadAssoc_append_left _ _ _ _ h
          · intro hwf e he
            rw [List.mem_append] at he
            rcases he with he | he
            · exact Nat.lt_succ_of_lt (hwf e he)
            · rw [List.mem_singleton] at he
              subst he
              exact Nat.lt_succ_self _
      | none =>
          exact ⟨Nat.le_refl _, rfl, fun _ _ => rfl, fun _ _ h => h, fun h => h⟩

theorem cWatch_core (rv : RV) (st : ConfigState) (key : String) (oid : Nat) :
    (cWatch rv st key oid).2.heapNext = (cValue rv st key).2.heapNext
    ∧ (cWatch rv st key oid).2.heap = (cValue rv st key).2.heap
    ∧ (cWatch rv st key oid).2.cached = (cValue rv st key).2.cached := by
  unfold cWatch
  by_cases h : derefLoad (cValue rv st key).2.heap (cValue rv st key).1 = none
  · simp only [if_pos h]
    exact ⟨by trivial, by trivial, by trivial⟩
  · simp only [if_neg h]
    exact ⟨by trivial, by trivial, by trivial⟩

theorem applyOp_inv (op : Op) (st : ConfigState) (k : String) (i : ValueId)
    (hwf : cacheWF st) (h : loadAssoc st.cached k = some i) :
    cacheWF (applyOp op st)
    ∧ loadAssoc (applyOp op st).cached k = some i
    ∧ storeReach (st.heap i) ((applyOp op st).heap i) := by
  have hi : i < st.heapNext := hwf (k, i) (loadAssoc_mem _ _ _ h)
  cases op with
  | iter o =>
      have hs := watchIter_state_shape o st
      refine ⟨?_, ?_, hs.2.2.2 i⟩
      · intro e he
        show e.2 < (watchIter o st).2.1.heapNext
        rw [hs.2.1]
        rw [show (applyOp (Op.iter o) st).cached = (watchIter o st).2.1.cached
          from rfl, hs.1] at he
        exact hwf e he
      · show loadAssoc (watchIter o st).2.1.cached k = some i
        rw [hs.1]
        exact h
  | getValue rv key =>
      have hs := cValue_state_shape rv st key
      exact ⟨hs.2.2.2.2 hwf, hs.2.2.2.1 k i h, Or.inl (hs.2.2.1 i hi).symm⟩
  | watchReg rv key oid =>
      have hcore := cWatch_core rv st key oid
      have hs := cValue_state_shape rv st key
      refine ⟨?_, ?_, ?_⟩
      · intro e he
        show e.2 < (cWatch rv st key oid).2.heapNext
        rw [hcore.1]
        rw [show (applyOp (Op.watchReg rv key oid) st).cached
          = (cWatch rv st key oid).2.cached from rfl, hcore.2.2] at he
        exact hs.2.2.2.2 hwf e he
      · show loadAssoc (cWatch rv st key oid).2.cached k = some i
        rw [hcore.2.2]
        exact hs.2.2.2.1 k i h
      · show storeReach (st.heap i) ((cWatch rv st key oid).2.heap i)
        rw [hcore.2.1]
        exact Or.inl (hs.2.2.1 i hi).symm

theorem run_inv (ops : List Op) :
    ∀ (st : ConfigState) (k : String) (i : ValueId),
      cacheWF st → loadAssoc st.cached k = some i →
      cacheWF (run ops st)
      ∧ loadAssoc (run ops st).cached k = some i
      ∧ storeReach (st.heap i) ((run ops st).heap i) := by
  induction ops with
  | nil => intro st k i hwf h; exact ⟨hwf, h, Or.inl rfl⟩
  | cons op rest ih =>
      intro st k i hwf h
      have h1 := applyOp_inv op st k i hwf h
      have h2 := ih (applyOp op st) k i h1.1 h1.2.1
      exact ⟨h2.1, h2.2.1, storeReach_trans h1.2.2 h2.2.2⟩

/-- C2: once the cache maps key `k` to the `Value` object `i`, no sequence
of orchestrator operations (reconciliation iterations, `Value` lookups,
`Watch` registrations) ever rebinds `k` to a different object; the object
is only ever mutated in place through `Store`, so a live value stays a live
value and every holder of the previously returned reference observes later
updates without calling `Value(k)` again. -/
theorem C2_cached_value_identity (ops : List Op) (st : ConfigState)
    (k : String) (i : ValueId) (q : Option Payload) (hwf : cacheWF st)
    (h : loadAssoc st.cached k = some i)
    (hlive : st.heap i = GoValue.live q) :
    loadAssoc (run ops st).cached k = some i
    ∧ storeReach (st.heap i) ((run ops st).heap i)
    ∧ ∃ q', (run ops st).heap i = GoValue.live q' := by
  have hr := run_inv ops st k i hwf h
  refine ⟨hr.2.1, hr.2.2, ?_⟩
  have hsr := hr.2.2
  rw [hlive] at hsr
  rcases hsr with h0 | ⟨p, hp⟩
  · exact ⟨q, h0.symm⟩
  · exact ⟨p, hp⟩

/-- A full successful reconciliation iteration against `rvC1`, for the C2
witness. -/
def orcScan : IterOracle := ⟨.ok ["kv"], false, false, rvC1⟩

/-- Operation sequence for the C2 witness: a reconciliation cycle, an
unrelated lookup that allocates a new cache entry, and a `Watch`
registration. -/
def opsC2 : List Op :=
  [Op.iter orcScan, Op.getValue rvC1 "b", Op.watchReg rvC1 "a" 5]

/-- Witness for C2: after the operation sequence, key `"a"` is still bound
to object 0 and that object is still a live value, reachable from its old
state by `Store` alone. -/
theorem C2_cached_value_identity_witness :
    loadAssoc (run opsC2 stC1).cached "a" = some 0
    ∧ storeReach (stC1.heap 0) ((run opsC2 stC1).heap 0)
    ∧ ∃ q', (run opsC2 stC1).heap 0 = GoValue.live q' := by
  exact C2_cached_value_identity opsC2 stC1 "a" 0 (some (.pInt 1))
    (by unfold cacheWF; decide) rfl rfl

/-! ### C9: observers fire only for cached keys -/

/-- C9: a successful `Watch(key, o)` guarantees the key is present in the
cache afterwards (the internal `Value(key)` call populates it on a Reader
hit), and a reconciliation iteration only produces observer invocations for
keys that were in the cache — an observer is never invoked for an uncached
key. -/
theorem C9_watch_key_cached (rv : RV) (st : ConfigState) (key : String)
    (oid : Nat) (o : IterOracle) :
    ((cWatch rv st key oid).1 = none →
        ∃ i, loadAssoc (cWatch rv st key oid).2.cached key = some i)
    ∧ (∀ inv ∈ (watchIter o st).2.2, inv.key ∈ st.cached.map Prod.fst) := by
  constructor
  · intro hsucc
    rw [(cWatch_core rv st key oid).2.2]
    by_cases h0 : derefLoad (cValue rv st key).2.heap (cValue rv st key).1 = none
    · exfalso
      have : (cWatch rv st key oid).1 = some errNotFound := by
        unfold cWatch
        simp only [if_pos h0]
      rw [this] at hsucc
      cases hsucc
    · cases hc : loadAssoc st.cached key with
      | some i =>
          have hst : (cValue rv st key).2 = st := by
            unfold cValue
            rw [hc]
          rw [hst]
          exact ⟨i, hc⟩
      | none =>
          cases hrv : rv key with
          | some p =>
              have hst : (cValue rv st key).2.cached
                  = st.cached ++ [(key, st.heapNext)] := by
                unfold cValue
                rw [hc, hrv]
              refine ⟨st.heapNext, ?_⟩
              rw [hst, loadAssoc_append_right _ _ _ hc]
              simp [loadAssoc]
          | none =>
              exfalso
              have hst : cValue rv st key = (.errRef errNotFound, st) := by
                unfold cValue
                rw [hc, hrv]
              rw [hst] at h0
              exact h0 rfl
  · intro inv hinv
    cases hn : o.next with
    | cancelled =>
        simp only [watchIter, hn] at hinv
        simp at hinv
    | nextErr =>
        simp only [watchIter, hn] at hinv
        simp at hinv
    | ok kvs =>
        simp only [watchIter, hn] at hinv
        cases hm : o.mergeFails with
        | true =>
            simp only [hm] at hinv
            simp at hinv
        | false =>
            cases hr : o.resolveFails with
            | true =>
                simp only [hm, hr] at hinv
                simp at hinv
            | false =>
                simp only [hm, hr, rangeScan] at hinv
                norm_num at hinv
                exact rangeScanGo_inv_keys o.rv st.observers st.cached st.heap
                  inv hinv

/-- Witness for C9: a successful `Watch` on the cached key `"a"`, and the
invocation fired for `"a"` by a full cycle, whose key is indeed among the
cached keys. -/
theorem C9_watch_key_cached_witness :
    (∃ i, loadAssoc (cWatch rvC1 stC1 "a" 5).2.cached "a" = some i)
    ∧ "a" ∈ stC1.cached.map Prod.fst := by
  constructor
  · exact (C9_watch_key_cached rvC1 stC1 "a" 5 orcScan).1 (by decide)
  · exact (C9_watch_key_cached rvC1 stC1 "a" 5 orcScan).2
      (Invocation.mk "a" 7 (some (.pInt 2))) (by decide)

end KratosConfig
